import Mathlib

/-!
Verification of the FleetOps dashboard backend (`src/server.ts`).

The server keeps two in-memory JavaScript objects, `robots` and `missions`,
mapping string ids to records.  We embed them as association lists
`List (String × Robot)` / `List (String × Mission)`: a JavaScript object has
unique keys and preserves insertion order, assignment to an existing key
replaces the value in place, assignment to a fresh key appends at the end.
`Object.values` is the in-order list of values.

Timestamps (`Date.now()`, `new Date()`) are modelled as natural numbers
counting milliseconds.  Each invocation of a routine samples the clock once
and threads that value (the source calls `Date.now()` during the loop, but a
tick is a short synchronous unit of work, per the single-threaded model).
The source compares `(now - stageStartTime) / 1000 >= duration` with exact
division by 1000, which over the integers is equivalent to
`duration * 1000 ≤ now - stageStartTime`; we use the latter form.
-/

/-- `Robot.status` values of `server.ts`. -/
inductive RobotStatus where
  | idle
  | assigned
  | en_route
  | delivering
  | completed
deriving DecidableEq, Repr

/-- `Mission.currentStage` values of `server.ts`. -/
inductive Stage where
  | preparation
  | travel
  | delivery
  | completed
  | cancelled
deriving DecidableEq, Repr

/-- The `Robot` interface of `server.ts`. -/
structure Robot where
  id : String
  status : RobotStatus
  currentMissionId : Option String
  lastUpdated : Nat
deriving DecidableEq, Repr

/-- The `Mission` interface of `server.ts`. -/
structure Mission where
  id : String
  assignedRobotId : Option String
  createdAt : Nat
  currentStage : Stage
  stageStartTime : Nat
deriving DecidableEq, Repr

/-- One entry of the `missionStages` table: duration in seconds and the robot
status written when that stage is entered. -/
structure StageInfo where
  duration : Nat
  robotStatus : RobotStatus
deriving DecidableEq, Repr

/-- The two global stores `robots` and `missions` of `server.ts`. -/
structure ServerState where
  robots : List (String × Robot)
  missions : List (String × Mission)
deriving DecidableEq, Repr

/-- Read a key from a JavaScript-object store (`robots[id]`): the value of the
first entry with that key, or `none`. -/
def storeGet {α : Type} (l : List (String × α)) (k : String) : Option α :=
  match l with
  | [] => none
  | p :: rest => if p.1 = k then some p.2 else storeGet rest k

/-- Write a key in a JavaScript-object store (`robots[id] = v`): replace the
value in place if the key exists, otherwise append the new entry at the end. -/
def storeSet {α : Type} (l : List (String × α)) (k : String) (v : α) :
    List (String × α) :=
  match l with
  | [] => [(k, v)]
  | p :: rest => if p.1 = k then (k, v) :: rest else p :: storeSet rest k v

/-- The `missionStages` table of `server.ts`.  The object literal has no entry
for `cancelled`, so that lookup is `none` (in the source it would be
`undefined`; advancement filters `cancelled` out before the lookup). -/
def missionStages : Stage → Option StageInfo
  | .preparation => some { duration := 30, robotStatus := .assigned }
  | .travel => some { duration := 150, robotStatus := .en_route }
  | .delivery => some { duration := 60, robotStatus := .delivering }
  | .completed => some { duration := 5, robotStatus := .completed }
  | .cancelled => none

/-- The local array `stages` of `updateRobotStates`. -/
def stagesList : List Stage := [.preparation, .travel, .delivery, .completed]

/-- `stages[stages.indexOf(currentStage) + 1]` of `updateRobotStates`:
the successor stage of the fixed sequence, `none` past `completed`. -/
def nextStage (s : Stage) : Option Stage :=
  stagesList[stagesList.indexOf s + 1]?

/-- Robot ids produced by `initializeRobots`. -/
def robotName (i : Nat) : String :=
  "robot-" ++ toString i

/-- `initializeRobots` at process start: `robot-1` … `robot-100`, all idle and
unassigned; the `missions` store is empty at that point. -/
def initializeRobots (now : Nat) : ServerState :=
  { robots := (List.range 100).map (fun i =>
      (robotName (i + 1),
       { id := robotName (i + 1)
         status := .idle
         currentMissionId := none
         lastUpdated := now })),
    missions := [] }

/-- `getAllRobots`: `Object.values(robots)`. -/
def getAllRobots (s : ServerState) : List Robot :=
  s.robots.map (fun p => p.2)

/-- `getIdleRobots`: the robots whose status is `idle`, in store order. -/
def getIdleRobots (s : ServerState) : List Robot :=
  (getAllRobots s).filter (fun robot => robot.status == RobotStatus.idle)

/-- A `Partial<Robot>` argument of `updateRobot`: `none` means the field is
absent from the partial.  The callers in `server.ts` only ever pass `status`
and `currentMissionId`. -/
structure RobotUpdate where
  id : Option String := none
  status : Option RobotStatus := none
  currentMissionId : Option (Option String) := none
  lastUpdated : Option Nat := none
deriving DecidableEq, Repr

/-- The merge `{ ...robot, ...updates, lastUpdated: new Date() }`: fields given
in the partial win over the old record, and the trailing `lastUpdated` stamp
wins over both. -/
def applyUpdate (r : Robot) (u : RobotUpdate) (now : Nat) : Robot :=
  { id := u.id.getD r.id
    status := u.status.getD r.status
    currentMissionId := u.currentMissionId.getD r.currentMissionId
    lastUpdated := now }

/-- `updateRobot(id, updates)`: `none` (and no state change) for an unknown id;
otherwise merge the partial into the record and store it back under `id`. -/
def updateRobot (s : ServerState) (id : String) (u : RobotUpdate) (now : Nat) :
    ServerState × Option Robot :=
  match storeGet s.robots id with
  | none => (s, none)
  | some robot =>
    let updatedRobot := applyUpdate robot u now
    ({ s with robots := storeSet s.robots id updatedRobot }, some updatedRobot)

/-- The id `` `mission-${Date.now()}-${i}` `` of the `i`-th mission created in a
batch at time `now`. -/
def missionId (now : Nat) (i : Nat) : String :=
  "mission-" ++ toString now ++ "-" ++ toString i

/-- The body of the `for` loop of `createNewMissions` for the pair
`(i, idleRobots[i])`. -/
def createStep (now : Nat) (st : ServerState) (p : Nat × Robot) : ServerState :=
  let mid := missionId now p.1
  let mission : Mission :=
    { id := mid
      assignedRobotId := some p.2.id
      createdAt := now
      currentStage := .preparation
      stageStartTime := now }
  let st' := { st with missions := storeSet st.missions mid mission }
  (updateRobot st' p.2.id
    { status := some .assigned, currentMissionId := some (some mid) } now).1

/-- `createNewMissions`: snapshot the idle robots, then create
`Math.min(2, idleRobots.length)` missions for `idleRobots[0]`, `idleRobots[1]`
in order. -/
def createNewMissions (s : ServerState) (now : Nat) : ServerState :=
  let idleRobots := getIdleRobots s
  let missionsToCreate := min 2 idleRobots.length
  ((idleRobots.take missionsToCreate).enum).foldl (createStep now) s

/-- The body of the `forEach` of `updateRobotStates` for one snapshot robot. -/
def advanceRobot (now : Nat) (st : ServerState) (robot : Robot) : ServerState :=
  match robot.currentMissionId with
  | none => st
  | some mid =>
    match storeGet st.missions mid with
    | none => st
    | some mission =>
      if mission.currentStage = .cancelled then st
      else
        match missionStages mission.currentStage with
        | none => st
        | some currentStageInfo =>
          let timeInStage := now - mission.stageStartTime
          if currentStageInfo.duration * 1000 ≤ timeInStage then
            match nextStage mission.currentStage with
            | some nxt =>
              let mission' :=
                { mission with currentStage := nxt, stageStartTime := now }
              let st' := { st with missions := storeSet st.missions mid mission' }
              match missionStages nxt with
              | none => st'
              | some nextInfo =>
                (updateRobot st' robot.id { status := some nextInfo.robotStatus } now).1
            | none =>
              if mission.currentStage = .completed then
                (updateRobot st robot.id
                  { status := some .idle, currentMissionId := some none } now).1
              else st
          else st

/-- `updateRobotStates`: iterate the advancement body over a snapshot of
`getAllRobots()`, threading the live stores. -/
def updateRobotStates (s : ServerState) (now : Nat) : ServerState :=
  (getAllRobots s).foldl (advanceRobot now) s

/-- `cancelRobotMission(robotId)`: `false` if the robot is unknown or idle;
otherwise mark the mission (when present) `cancelled`, idle the robot, and
return `true`. -/
def cancelRobotMission (s : ServerState) (robotId : String) (now : Nat) :
    ServerState × Bool :=
  match storeGet s.robots robotId with
  | none => (s, false)
  | some robot =>
    match robot.currentMissionId with
    | none => (s, false)
    | some mid =>
      let s' :=
        match storeGet s.missions mid with
        | none => s
        | some mission =>
          { s with missions :=
              storeSet s.missions mid { mission with currentStage := .cancelled } }
      ((updateRobot s' robotId
          { status := some .idle, currentMissionId := some none } now).1, true)

/-- The response shape of `GET /api/stats`. -/
structure Stats where
  totalRobots : Nat
  idleRobots : Nat
  totalMissions : Nat
  activeMissions : Nat
  completedMissions : Nat
  cancelledMissions : Nat
deriving DecidableEq, Repr

/-- The body of the `GET /api/stats` handler: a pure derivation from the two
stores (the handler only reads; in this embedding that is visible in the type,
which returns no state). -/
def getStats (s : ServerState) : Stats :=
  let missionArray := s.missions.map (fun p => p.2)
  { totalRobots := s.robots.length
    idleRobots := (getIdleRobots s).length
    totalMissions := s.missions.length
    activeMissions := (missionArray.filter (fun m =>
      m.currentStage != Stage.completed && m.currentStage != Stage.cancelled)).length
    completedMissions := (missionArray.filter (fun m =>
      m.currentStage == Stage.completed)).length
    cancelledMissions := (missionArray.filter (fun m =>
      m.currentStage == Stage.cancelled)).length }

/-- A run of advancement ticks at the given clock readings. -/
def runTicks (s : ServerState) (ts : List Nat) : ServerState :=
  ts.foldl updateRobotStates s

/-! ### Association-list store lemmas -/

theorem storeGet_storeSet_self {α : Type} (l : List (String × α)) (k : String) (v : α) :
    storeGet (storeSet l k v) k = some v := by
  induction l with
  | nil => simp [storeGet, storeSet]
  | cons p rest ih =>
    by_cases h : p.1 = k
    · simp [storeSet, h, storeGet]
    · simp [storeSet, h, storeGet, ih]

theorem storeGet_storeSet_ne {α : Type} (l : List (String × α)) (k k' : String) (v : α)
    (h : k' ≠ k) : storeGet (storeSet l k v) k' = storeGet l k' := by
  induction l with
  | nil => simp [storeGet, storeSet, Ne.symm h]
  | cons p rest ih =>
    by_cases hp : p.1 = k
    · have hp' : p.1 ≠ k' := by rw [hp]; exact Ne.symm h
      simp [storeSet, hp, storeGet, hp', Ne.symm h]
    · by_cases hp' : p.1 = k'
      · simp only [storeSet, if_neg hp]
        simp [storeGet, hp']
      · simp [storeSet, hp, storeGet, hp', ih]

theorem mem_storeSet {α : Type} (l : List (String × α)) (k : String) (v : α)
    (p : String × α) (h : p ∈ storeSet l k v) : p = (k, v) ∨ p ∈ l := by
  induction l with
  | nil =>
    simp [storeSet] at h
    exact Or.inl h
  | cons q rest ih =>
    by_cases hq : q.1 = k
    · simp [storeSet, hq] at h
      rcases h with h | h
      · exact Or.inl h
      · exact Or.inr (List.mem_cons_of_mem _ h)
    · simp [storeSet, hq] at h
      rcases h with h | h
      · exact Or.inr (by simp [h])
      · rcases ih h with h' | h'
        · exact Or.inl h'
        · exact Or.inr (List.mem_cons_of_mem _ h')

theorem storeSet_keys_of_found {α : Type} (l : List (String × α)) (k : String) (v w : α)
    (h : storeGet l k = some w) :
    (storeSet l k v).map Prod.fst = l.map Prod.fst := by
  induction l with
  | nil => simp [storeGet] at h
  | cons p rest ih =>
    by_cases hp : p.1 = k
    · simp [storeSet, hp]
    · simp [storeGet, hp] at h
      simp [storeSet, hp, ih h]

theorem storeSet_length_of_found {α : Type} (l : List (String × α)) (k : String) (v w : α)
    (h : storeGet l k = some w) : (storeSet l k v).length = l.length := by
  have := storeSet_keys_of_found l k v w h
  have h1 : ((storeSet l k v).map Prod.fst).length = (l.map Prod.fst).length := by rw [this]
  simpa using h1

theorem storeSet_length_of_none {α : Type} (l : List (String × α)) (k : String) (v : α)
    (h : storeGet l k = none) : (storeSet l k v).length = l.length + 1 := by
  induction l with
  | nil => simp [storeSet]
  | cons p rest ih =>
    by_cases hp : p.1 = k
    · simp [storeGet, hp] at h
    · simp [storeGet, hp] at h
      simp [storeSet, hp, ih h]

theorem mem_of_storeGet_eq_some {α : Type} (l : List (String × α)) (k : String) (v : α)
    (h : storeGet l k = some v) : (k, v) ∈ l := by
  induction l with
  | nil => simp [storeGet] at h
  | cons p rest ih =>
    by_cases hp : p.1 = k
    · simp [storeGet, hp] at h
      subst hp
      simp [← h, Prod.ext_iff]
    · simp [storeGet, hp] at h
      exact List.mem_cons_of_mem _ (ih h)

theorem storeGet_of_mem_nodup {α : Type} (l : List (String × α)) (k : String) (v : α)
    (hnd : (l.map Prod.fst).Nodup) (hm : (k, v) ∈ l) : storeGet l k = some v := by
  induction l with
  | nil => simp at hm
  | cons p rest ih =>
    rcases List.mem_cons.mp hm with h | h
    · simp [storeGet, ← h]
    · have hnd' : p.1 ∉ rest.map Prod.fst ∧ (rest.map Prod.fst).Nodup := by
        rw [List.map_cons] at hnd
        exact List.nodup_cons.mp hnd
      have hk : k ∈ rest.map Prod.fst := List.mem_map.mpr ⟨(k, v), h, rfl⟩
      have hp : p.1 ≠ k := by
        intro hpk
        exact hnd'.1 (hpk ▸ hk)
      simp [storeGet, hp]
      exact ih hnd'.2 h

theorem storeGet_eq_none_of_not_mem {α : Type} (l : List (String × α)) (k : String)
    (h : k ∉ l.map Prod.fst) : storeGet l k = none := by
  induction l with
  | nil => simp [storeGet]
  | cons p rest ih =>
    have h1 : p.1 ≠ k := fun hh => h (by
      rw [List.map_cons]; exact List.mem_cons.mpr (Or.inl hh.symm))
    have h2 : k ∉ rest.map Prod.fst := fun hh => h (by
      rw [List.map_cons]; exact List.mem_cons.mpr (Or.inr hh))
    simp [storeGet, h1, ih h2]

/-! ### Well-formedness of the robot store -/

/-- The store shape every reachable `robots` object has: keys are unique (as in
any JavaScript object) and each record's `id` field equals its key. -/
def WFRobots (s : ServerState) : Prop :=
  (s.robots.map Prod.fst).Nodup ∧ ∀ p ∈ s.robots, p.2.id = p.1

/-- The data-model invariant: a robot is idle exactly when it references no
mission. -/
def RobotConsistent (r : Robot) : Prop :=
  r.status = RobotStatus.idle ↔ r.currentMissionId = none

/-- `RobotConsistent` at every record of the robot store. -/
def InvIdle (s : ServerState) : Prop :=
  ∀ p ∈ s.robots, RobotConsistent p.2

/-! ### `updateRobot` lemmas -/

theorem updateRobot_missions (s : ServerState) (id : String) (u : RobotUpdate)
    (now : Nat) : (updateRobot s id u now).1.missions = s.missions := by
  unfold updateRobot
  cases storeGet s.robots id <;> simp

theorem updateRobot_of_none (s : ServerState) (id : String) (u : RobotUpdate)
    (now : Nat) (h : storeGet s.robots id = none) :
    updateRobot s id u now = (s, none) := by
  unfold updateRobot
  simp [h]

theorem updateRobot_robots_of_some (s : ServerState) (id : String) (u : RobotUpdate)
    (now : Nat) (r : Robot) (h : storeGet s.robots id = some r) :
    (updateRobot s id u now).1.robots = storeSet s.robots id (applyUpdate r u now) := by
  unfold updateRobot
  simp [h]

theorem updateRobot_snd_of_some (s : ServerState) (id : String) (u : RobotUpdate)
    (now : Nat) (r : Robot) (h : storeGet s.robots id = some r) :
    (updateRobot s id u now).2 = some (applyUpdate r u now) := by
  unfold updateRobot
  simp [h]

theorem storeGet_updateRobot_self (s : ServerState) (id : String) (u : RobotUpdate)
    (now : Nat) (r : Robot) (h : storeGet s.robots id = some r) :
    storeGet (updateRobot s id u now).1.robots id = some (applyUpdate r u now) := by
  rw [updateRobot_robots_of_some s id u now r h]
  exact storeGet_storeSet_self _ _ _

theorem storeGet_updateRobot_ne (s : ServerState) (id : String) (u : RobotUpdate)
    (now : Nat) (k : String) (h : k ≠ id) :
    storeGet (updateRobot s id u now).1.robots k = storeGet s.robots k := by
  unfold updateRobot
  cases storeGet s.robots id
  · simp
  · simp [storeGet_storeSet_ne _ _ _ _ h]

theorem updateRobot_keys (s : ServerState) (id : String) (u : RobotUpdate)
    (now : Nat) :
    (updateRobot s id u now).1.robots.map Prod.fst = s.robots.map Prod.fst := by
  unfold updateRobot
  cases hg : storeGet s.robots id
  · simp
  · simpa using storeSet_keys_of_found s.robots id _ _ hg

theorem updateRobot_preserves_wf (s : ServerState) (id : String) (u : RobotUpdate)
    (now : Nat) (hu : u.id = none) (hwf : WFRobots s) :
    WFRobots (updateRobot s id u now).1 := by
  obtain ⟨hnd, hids⟩ := hwf
  constructor
  · rw [updateRobot_keys]
    exact hnd
  · intro p hp
    cases hg : storeGet s.robots id with
    | none =>
      rw [updateRobot_of_none s id u now hg] at hp
      exact hids p hp
    | some r =>
      rw [updateRobot_robots_of_some s id u now r hg] at hp
      rcases mem_storeSet _ _ _ _ hp with h | h
      · have hmem := mem_of_storeGet_eq_some _ _ _ hg
        have hrid : r.id = id := hids _ hmem
        rw [h]
        simp [applyUpdate, hu, hrid]
      · exact hids p h

theorem invIdle_updateRobot_pair (s : ServerState) (id : String) (u : RobotUpdate)
    (now : Nat) (v : RobotStatus) (mi : Option String)
    (hs : u.status = some v) (hm : u.currentMissionId = some mi)
    (hc : v = RobotStatus.idle ↔ mi = none) (hinv : InvIdle s) :
    InvIdle (updateRobot s id u now).1 := by
  intro p hp
  cases hg : storeGet s.robots id with
  | none =>
    rw [updateRobot_of_none s id u now hg] at hp
    exact hinv p hp
  | some r =>
    rw [updateRobot_robots_of_some s id u now r hg] at hp
    rcases mem_storeSet _ _ _ _ hp with h | h
    · rw [h]
      simp only [RobotConsistent, applyUpdate, hs, hm, Option.getD_some]
      exact hc
    · exact hinv p h

theorem invIdle_updateRobot_statusOnly (s : ServerState) (id : String)
    (u : RobotUpdate) (now : Nat) (v : RobotStatus)
    (hs : u.status = some v) (hv : v ≠ RobotStatus.idle)
    (hm : u.currentMissionId = none)
    (hlive : ∀ r, storeGet s.robots id = some r → r.currentMissionId ≠ none)
    (hinv : InvIdle s) :
    InvIdle (updateRobot s id u now).1 := by
  intro p hp
  cases hg : storeGet s.robots id with
  | none =>
    rw [updateRobot_of_none s id u now hg] at hp
    exact hinv p hp
  | some r =>
    rw [updateRobot_robots_of_some s id u now r hg] at hp
    rcases mem_storeSet _ _ _ _ hp with h | h
    · rw [h]
      simp only [RobotConsistent, applyUpdate, hs, hm, Option.getD_some,
        Option.getD_none]
      constructor
      · intro hvi
        exact absurd hvi hv
      · intro hmi
        exact absurd hmi (hlive r hg)
    · exact hinv p h

/-! ### Stage-table facts -/

theorem nextStage_preparation : nextStage Stage.preparation = some Stage.travel := by
  decide

theorem nextStage_travel : nextStage Stage.travel = some Stage.delivery := by
  decide

theorem nextStage_delivery : nextStage Stage.delivery = some Stage.completed := by
  decide

theorem nextStage_completed : nextStage Stage.completed = none := by
  decide

theorem nextStage_ne_cancelled (σ nxt : Stage) (h : nextStage σ = some nxt) :
    nxt ≠ Stage.cancelled := by
  intro hc
  subst hc
  cases σ <;> revert h <;> decide

theorem stage_eq_completed_of_nextStage_none (σ : Stage)
    (hσ : σ ≠ Stage.cancelled) (h : nextStage σ = none) : σ = Stage.completed := by
  cases σ <;> revert h <;> simp_all <;> decide

theorem missionStages_isSome_of_ne_cancelled (σ : Stage) (h : σ ≠ Stage.cancelled) :
    ∃ info, missionStages σ = some info := by
  cases σ <;> simp_all [missionStages]

theorem missionStages_of_nextStage (σ nxt : Stage) (h : nextStage σ = some nxt) :
    ∃ info, missionStages nxt = some info := by
  have := nextStage_ne_cancelled σ nxt h
  exact missionStages_isSome_of_ne_cancelled nxt this

theorem missionStages_duration_pos (σ : Stage) (info : StageInfo)
    (h : missionStages σ = some info) : 0 < info.duration := by
  cases σ <;> simp [missionStages] at h <;> simp [← h]

/-! ### Branch equations of the advancement body -/

/-- The mutated mission record of a stage transition:
`mission.currentStage = nextStage; mission.stageStartTime = new Date()`. -/
def advancedMission (mission : Mission) (nxt : Stage) (now : Nat) : Mission :=
  { mission with currentStage := nxt, stageStartTime := now }

theorem advanceRobot_eq_skip_none (now : Nat) (st : ServerState) (robot : Robot)
    (h : robot.currentMissionId = none) : advanceRobot now st robot = st := by
  simp [advanceRobot, h]

theorem advanceRobot_eq_skip_missing (now : Nat) (st : ServerState) (robot : Robot)
    (mid : String) (h1 : robot.currentMissionId = some mid)
    (h2 : storeGet st.missions mid = none) : advanceRobot now st robot = st := by
  simp [advanceRobot, h1, h2]

theorem advanceRobot_eq_skip_cancelled (now : Nat) (st : ServerState) (robot : Robot)
    (mid : String) (mission : Mission) (h1 : robot.currentMissionId = some mid)
    (h2 : storeGet st.missions mid = some mission)
    (h3 : mission.currentStage = Stage.cancelled) : advanceRobot now st robot = st := by
  simp [advanceRobot, h1, h2, h3]

theorem advanceRobot_eq_skip_notyet (now : Nat) (st : ServerState) (robot : Robot)
    (mid : String) (mission : Mission) (info : StageInfo)
    (h1 : robot.currentMissionId = some mid)
    (h2 : storeGet st.missions mid = some mission)
    (h3 : mission.currentStage ≠ Stage.cancelled)
    (h4 : missionStages mission.currentStage = some info)
    (h5 : ¬ info.duration * 1000 ≤ now - mission.stageStartTime) :
    advanceRobot now st robot = st := by
  simp [advanceRobot, h1, h2, h3, h4, h5]

theorem advanceRobot_eq_advance (now : Nat) (st : ServerState) (robot : Robot)
    (mid : String) (mission : Mission) (info nextInfo : StageInfo) (nxt : Stage)
    (h1 : robot.currentMissionId = some mid)
    (h2 : storeGet st.missions mid = some mission)
    (h3 : mission.currentStage ≠ Stage.cancelled)
    (h4 : missionStages mission.currentStage = some info)
    (h5 : info.duration * 1000 ≤ now - mission.stageStartTime)
    (h6 : nextStage mission.currentStage = some nxt)
    (h7 : missionStages nxt = some nextInfo) :
    advanceRobot now st robot =
      (updateRobot
        { st with missions := storeSet st.missions mid (advancedMission mission nxt now) }
        robot.id { status := some nextInfo.robotStatus } now).1 := by
  simp [advanceRobot, advancedMission, h1, h2, h3, h4, h5, h6, h7]

theorem advanceRobot_eq_complete (now : Nat) (st : ServerState) (robot : Robot)
    (mid : String) (mission : Mission) (info : StageInfo)
    (h1 : robot.currentMissionId = some mid)
    (h2 : storeGet st.missions mid = some mission)
    (h3 : mission.currentStage ≠ Stage.cancelled)
    (h4 : missionStages mission.currentStage = some info)
    (h5 : info.duration * 1000 ≤ now - mission.stageStartTime)
    (h6 : nextStage mission.currentStage = none) :
    advanceRobot now st robot =
      (updateRobot st robot.id
        { status := some RobotStatus.idle, currentMissionId := some none } now).1 := by
  have hcomp : mission.currentStage = Stage.completed :=
    stage_eq_completed_of_nextStage_none _ h3 h6
  have h4' : missionStages Stage.completed = some info := hcomp ▸ h4
  have h6' : nextStage Stage.completed = none := hcomp ▸ h6
  simp [advanceRobot, h1, h2, hcomp, h4', h5, h6']

/-- Exhaustive case analysis of one advancement-body invocation: it is a no-op,
a stage transition, or the post-`completed` idling. -/
theorem advanceRobot_cases (now : Nat) (st : ServerState) (robot : Robot) :
    advanceRobot now st robot = st ∨
    ∃ mid mission info, robot.currentMissionId = some mid ∧
      storeGet st.missions mid = some mission ∧
      mission.currentStage ≠ Stage.cancelled ∧
      missionStages mission.currentStage = some info ∧
      info.duration * 1000 ≤ now - mission.stageStartTime ∧
      ((∃ nxt nextInfo, nextStage mission.currentStage = some nxt ∧
          missionStages nxt = some nextInfo ∧
          advanceRobot now st robot =
            (updateRobot
              { st with missions :=
                  storeSet st.missions mid (advancedMission mission nxt now) }
              robot.id { status := some nextInfo.robotStatus } now).1) ∨
        (nextStage mission.currentStage = none ∧
          mission.currentStage = Stage.completed ∧
          advanceRobot now st robot =
            (updateRobot st robot.id
              { status := some RobotStatus.idle, currentMissionId := some none }
              now).1)) := by
  cases hmid : robot.currentMissionId with
  | none => exact Or.inl (advanceRobot_eq_skip_none now st robot hmid)
  | some mid =>
    cases hg : storeGet st.missions mid with
    | none => exact Or.inl (advanceRobot_eq_skip_missing now st robot mid hmid hg)
    | some mission =>
      by_cases hc : mission.currentStage = Stage.cancelled
      · exact Or.inl (advanceRobot_eq_skip_cancelled now st robot mid mission hmid hg hc)
      · obtain ⟨info, hinfo⟩ := missionStages_isSome_of_ne_cancelled _ hc
        by_cases he : info.duration * 1000 ≤ now - mission.stageStartTime
        · refine Or.inr ⟨mid, mission, info, rfl, hg, hc, hinfo, he, ?_⟩
          cases hnx : nextStage mission.currentStage with
          | some nxt =>
            obtain ⟨nextInfo, hni⟩ := missionStages_of_nextStage _ _ hnx
            exact Or.inl ⟨nxt, nextInfo, rfl, hni,
              advanceRobot_eq_advance now st robot mid mission info nextInfo nxt
                hmid hg hc hinfo he hnx hni⟩
          | none =>
            exact Or.inr ⟨rfl, stage_eq_completed_of_nextStage_none _ hc hnx,
              advanceRobot_eq_complete now st robot mid mission info
                hmid hg hc hinfo he hnx⟩
        · exact Or.inl (advanceRobot_eq_skip_notyet now st robot mid mission info
            hmid hg hc hinfo he)

/-! ### Frame lemmas of one advancement-body invocation -/

theorem advanceRobot_robots_frame (now : Nat) (st : ServerState) (robot : Robot)
    (k : String) (h : robot.currentMissionId = none ∨ robot.id ≠ k) :
    storeGet (advanceRobot now st robot).robots k = storeGet st.robots k := by
  rcases h with h | h
  · rw [advanceRobot_eq_skip_none now st robot h]
  · rcases advanceRobot_cases now st robot with heq | ⟨mid, mission, info, _, _, _, _, _,
      ⟨nxt, nextInfo, _, _, heq⟩ | ⟨_, _, heq⟩⟩
    · rw [heq]
    · rw [heq]
      exact storeGet_updateRobot_ne _ robot.id _ now k (Ne.symm h)
    · rw [heq]
      exact storeGet_updateRobot_ne _ robot.id _ now k (Ne.symm h)

theorem advanceRobot_missions_frame (now : Nat) (st : ServerState) (robot : Robot)
    (m : String) (h : robot.currentMissionId ≠ some m) :
    storeGet (advanceRobot now st robot).missions m = storeGet st.missions m := by
  rcases advanceRobot_cases now st robot with heq | ⟨mid, mission, info, hmid, _, _, _, _,
    ⟨nxt, nextInfo, _, _, heq⟩ | ⟨_, _, heq⟩⟩
  · rw [heq]
  · rw [heq, updateRobot_missions]
    have hne : m ≠ mid := by
      intro hmm
      exact h (hmm ▸ hmid)
    exact storeGet_storeSet_ne _ _ _ _ hne
  · rw [heq, updateRobot_missions]

theorem advanceRobot_missions_cancelled_frame (now : Nat) (st : ServerState)
    (robot : Robot) (m : String) (μ : Mission)
    (hm : storeGet st.missions m = some μ) (hc : μ.currentStage = Stage.cancelled) :
    storeGet (advanceRobot now st robot).missions m = some μ := by
  rcases advanceRobot_cases now st robot with heq | ⟨mid, mission, info, hmid, hg, hnc, _, _,
    ⟨nxt, nextInfo, _, _, heq⟩ | ⟨_, _, heq⟩⟩
  · rw [heq]; exact hm
  · rw [heq, updateRobot_missions]
    have hne : m ≠ mid := by
      intro hmm
      subst hmm
      rw [hm] at hg
      exact hnc (by rw [← Option.some_inj.mp hg]; exact hc)
    rw [storeGet_storeSet_ne _ _ _ _ hne]
    exact hm
  · rw [heq, updateRobot_missions]; exact hm

theorem advanceRobot_keys (now : Nat) (st : ServerState) (robot : Robot) :
    (advanceRobot now st robot).robots.map Prod.fst = st.robots.map Prod.fst := by
  rcases advanceRobot_cases now st robot with heq | ⟨mid, mission, info, _, _, _, _, _,
    ⟨nxt, nextInfo, _, _, heq⟩ | ⟨_, _, heq⟩⟩
  · rw [heq]
  · rw [heq, updateRobot_keys]
  · rw [heq, updateRobot_keys]

theorem advanceRobot_preserves_wf (now : Nat) (st : ServerState) (robot : Robot)
    (hwf : WFRobots st) : WFRobots (advanceRobot now st robot) := by
  rcases advanceRobot_cases now st robot with heq | ⟨mid, mission, info, _, _, _, _, _,
    ⟨nxt, nextInfo, _, _, heq⟩ | ⟨_, _, heq⟩⟩
  · rw [heq]; exact hwf
  · rw [heq]
    exact updateRobot_preserves_wf _ robot.id _ now rfl ⟨hwf.1, hwf.2⟩
  · rw [heq]
    exact updateRobot_preserves_wf _ robot.id _ now rfl hwf

/-! ### Mission references only shrink under advancement -/

/-- No robot other than the one stored under key `k` references mission `m`. -/
def NoRefExcept (s : ServerState) (k : String) (m : String) : Prop :=
  ∀ p ∈ s.robots, p.1 ≠ k → p.2.currentMissionId ≠ some m

theorem noref_updateRobot (s : ServerState) (id : String) (u : RobotUpdate)
    (now : Nat) (k m : String)
    (hu : u.currentMissionId = none ∨ u.currentMissionId = some none)
    (h : NoRefExcept s k m) : NoRefExcept (updateRobot s id u now).1 k m := by
  intro p hp hpk
  cases hg : storeGet s.robots id with
  | none =>
    rw [updateRobot_of_none s id u now hg] at hp
    exact h p hp hpk
  | some w =>
    rw [updateRobot_robots_of_some s id u now w hg] at hp
    rcases mem_storeSet _ _ _ _ hp with hh | hh
    · rcases hu with hu | hu
      · have hmid : (applyUpdate w u now).currentMissionId = w.currentMissionId := by
          simp [applyUpdate, hu]
        rw [hh]
        simp only [hmid]
        have hidk : id ≠ k := by
          rw [hh] at hpk
          exact hpk
        exact h (id, w) (mem_of_storeGet_eq_some _ _ _ hg) hidk
      · rw [hh]
        simp [applyUpdate, hu]
    · exact h p hh hpk

theorem advanceRobot_preserves_noref (now : Nat) (st : ServerState) (robot : Robot)
    (k m : String) (h : NoRefExcept st k m) :
    NoRefExcept (advanceRobot now st robot) k m := by
  rcases advanceRobot_cases now st robot with heq | ⟨mid, mission, info, _, _, _, _, _,
    ⟨nxt, nextInfo, _, _, heq⟩ | ⟨_, _, heq⟩⟩
  · rw [heq]; exact h
  · rw [heq]
    exact noref_updateRobot _ robot.id _ now k m (Or.inl rfl) h
  · rw [heq]
    exact noref_updateRobot _ robot.id _ now k m (Or.inr rfl) h

/-! ### Folding the advancement body over a snapshot -/

theorem foldl_advance_preserve (now : Nat) (P : ServerState → Prop)
    (l : List Robot)
    (hstep : ∀ st robot, robot ∈ l → P st → P (advanceRobot now st robot)) :
    ∀ st, P st → P (l.foldl (advanceRobot now) st) := by
  induction l with
  | nil => intro st h; exact h
  | cons r rest ih =>
    intro st h
    exact ih (fun st' robot hm hP => hstep st' robot (List.mem_cons_of_mem _ hm) hP)
      _ (hstep st r (List.mem_cons_self _ _) h)

theorem updateRobotStates_preserves_wf (s : ServerState) (now : Nat)
    (hwf : WFRobots s) : WFRobots (updateRobotStates s now) := by
  unfold updateRobotStates
  exact foldl_advance_preserve now WFRobots (getAllRobots s)
    (fun st robot _ h => advanceRobot_preserves_wf now st robot h) s hwf

theorem updateRobotStates_preserves_noref (s : ServerState) (now : Nat)
    (k m : String) (h : NoRefExcept s k m) :
    NoRefExcept (updateRobotStates s now) k m := by
  unfold updateRobotStates
  exact foldl_advance_preserve now (fun st => NoRefExcept st k m) (getAllRobots s)
    (fun st robot _ hP => advanceRobot_preserves_noref now st robot k m hP) s h

theorem updateRobotStates_missions_cancelled (s : ServerState) (now : Nat)
    (m : String) (μ : Mission) (hm : storeGet s.missions m = some μ)
    (hc : μ.currentStage = Stage.cancelled) :
    storeGet (updateRobotStates s now).missions m = some μ := by
  unfold updateRobotStates
  exact foldl_advance_preserve now
    (fun st => storeGet st.missions m = some μ) (getAllRobots s)
    (fun st robot _ hP => advanceRobot_missions_cancelled_frame now st robot m μ hP hc)
    s hm

/-! ### Values of a well-formed store -/

theorem wf_storeGet_of_mem_values (s : ServerState) (r : Robot)
    (hwf : WFRobots s) (hr : r ∈ getAllRobots s) :
    storeGet s.robots r.id = some r := by
  obtain ⟨p, hp, hpr⟩ := List.mem_map.mp hr
  have hid : p.2.id = p.1 := hwf.2 p hp
  have : (r.id, r) = p := by
    rw [← hpr, hid]
  rw [← this] at hp
  exact storeGet_of_mem_nodup _ _ _ hwf.1 hp

theorem wf_value_eq_of_id (s : ServerState) (r w : Robot) (hwf : WFRobots s)
    (hr : r ∈ getAllRobots s) (hw : storeGet s.robots r.id = some w) : r = w := by
  have := wf_storeGet_of_mem_values s r hwf hr
  rw [this] at hw
  exact Option.some_inj.mp hw

/-! ### Cancellation branch equations -/

/-- The mutated mission record of a cancellation:
`mission.currentStage = 'cancelled'`. -/
def cancelledMission (μ : Mission) : Mission :=
  { μ with currentStage := Stage.cancelled }

theorem cancel_eq_no_robot (s : ServerState) (rid : String) (now : Nat)
    (h : storeGet s.robots rid = none) :
    cancelRobotMission s rid now = (s, false) := by
  simp [cancelRobotMission, h]

theorem cancel_eq_no_mid (s : ServerState) (rid : String) (now : Nat) (r : Robot)
    (h : storeGet s.robots rid = some r) (hm : r.currentMissionId = none) :
    cancelRobotMission s rid now = (s, false) := by
  simp [cancelRobotMission, h, hm]

theorem cancel_eq_dangling (s : ServerState) (rid : String) (now : Nat) (r : Robot)
    (m : String) (h : storeGet s.robots rid = some r)
    (hm : r.currentMissionId = some m) (hmiss : storeGet s.missions m = none) :
    cancelRobotMission s rid now =
      ((updateRobot s rid
          { status := some RobotStatus.idle, currentMissionId := some none } now).1,
        true) := by
  simp [cancelRobotMission, h, hm, hmiss]

theorem cancel_eq_found (s : ServerState) (rid : String) (now : Nat) (r : Robot)
    (m : String) (μ : Mission) (h : storeGet s.robots rid = some r)
    (hm : r.currentMissionId = some m) (hmiss : storeGet s.missions m = some μ) :
    cancelRobotMission s rid now =
      ((updateRobot
          { s with missions := storeSet s.missions m (cancelledMission μ) } rid
          { status := some RobotStatus.idle, currentMissionId := some none } now).1,
        true) := by
  simp [cancelRobotMission, cancelledMission, h, hm, hmiss]

/-! ### Concrete fixtures used by the witnesses -/

/-- A robot mid-`travel`, for witness instantiations. -/
def demoRobot : Robot :=
  { id := "r1", status := RobotStatus.en_route, currentMissionId := some "m1",
    lastUpdated := 0 }

/-- A second, idle robot. -/
def demoIdleRobot : Robot :=
  { id := "r2", status := RobotStatus.idle, currentMissionId := none,
    lastUpdated := 0 }

/-- The mission of `demoRobot`, in `travel` since time 1000. -/
def demoMission : Mission :=
  { id := "m1", assignedRobotId := some "r1", createdAt := 0,
    currentStage := Stage.travel, stageStartTime := 1000 }

/-- A two-robot, one-mission state for witness instantiations. -/
def demoState : ServerState :=
  { robots := [("r1", demoRobot), ("r2", demoIdleRobot)],
    missions := [("m1", demoMission)] }

/-! ### Claim C8: the stats derivation -/

/-- Modelled from the spec: the stats counts as §4.4 words them — total robots,
idle robots, total missions, active missions (`currentStage` not in
{completed, cancelled}), completed missions, cancelled missions, as counting
predicates over the two store snapshots.  Compared against the source-derived
`getStats`. -/
def statsSpec (s : ServerState) : Stats :=
  { totalRobots := s.robots.length
    idleRobots := s.robots.countP (fun p => p.2.status == RobotStatus.idle)
    totalMissions := s.missions.length
    activeMissions := s.missions.countP (fun p =>
      p.2.currentStage != Stage.completed && p.2.currentStage != Stage.cancelled)
    completedMissions := s.missions.countP (fun p =>
      p.2.currentStage == Stage.completed)
    cancelledMissions := s.missions.countP (fun p =>
      p.2.currentStage == Stage.cancelled) }

/-- Claim C8: the `GET /api/stats` handler is a pure derivation of the current
stores (the embedding returns no state, so it mutates neither store), and its
six fields are exactly the robot count, the idle-robot count, the mission
count, and the counts of missions whose `currentStage` is respectively neither
`completed` nor `cancelled`, equal to `completed`, and equal to `cancelled`. -/
theorem C8_stats_spec (s : ServerState) : getStats s = statsSpec s := by
  unfold getStats statsSpec getIdleRobots getAllRobots
  simp only [Stats.mk.injEq]
  refine ⟨trivial, ?_, trivial, ?_, ?_, ?_⟩ <;>
    (first
      | rfl
      | (simp [List.countP_eq_length_filter, List.filter_map, Function.comp]
         try rfl))

/-! ### Claim C9: registry update semantics -/

/-- Claim C9: for an existing robot id, `updateRobot` returns the merged
record, in which every field given in the partial takes its new value, every
field not given keeps its previous value, and `lastUpdated` is stamped with
the current time; the merged record is stored back under the same id, every
other robot's record is untouched, and the mission store is untouched.  For an
unknown id it returns `none` and changes nothing. -/
theorem C9_updateRobot_spec (s : ServerState) (id : String) (u : RobotUpdate)
    (now : Nat) :
    (storeGet s.robots id = none → updateRobot s id u now = (s, none)) ∧
    (∀ r, storeGet s.robots id = some r →
      (updateRobot s id u now).2 = some (applyUpdate r u now) ∧
      (applyUpdate r u now).id = u.id.getD r.id ∧
      (applyUpdate r u now).status = u.status.getD r.status ∧
      (applyUpdate r u now).currentMissionId =
        u.currentMissionId.getD r.currentMissionId ∧
      (applyUpdate r u now).lastUpdated = now ∧
      storeGet (updateRobot s id u now).1.robots id = some (applyUpdate r u now) ∧
      (∀ k, k ≠ id → storeGet (updateRobot s id u now).1.robots k =
        storeGet s.robots k) ∧
      (updateRobot s id u now).1.missions = s.missions) := by
  constructor
  · intro h
    exact updateRobot_of_none s id u now h
  · intro r h
    exact ⟨updateRobot_snd_of_some s id u now r h, rfl, rfl, rfl, rfl,
      storeGet_updateRobot_self s id u now r h,
      fun k hk => storeGet_updateRobot_ne s id u now k hk,
      updateRobot_missions s id u now⟩

/-- Witness for C9 at a concrete state: update `r1`'s status; the merged
record takes the new status, keeps its mission reference, is stamped, and the
other robot and the missions are untouched. -/
theorem C9_updateRobot_spec_witness :
    (updateRobot demoState "r1" { status := some RobotStatus.delivering } 7).2 =
      some (applyUpdate demoRobot { status := some RobotStatus.delivering } 7) ∧
    storeGet (updateRobot demoState "r1"
        { status := some RobotStatus.delivering } 7).1.robots "r1" =
      some (applyUpdate demoRobot { status := some RobotStatus.delivering } 7) ∧
    storeGet (updateRobot demoState "r1"
        { status := some RobotStatus.delivering } 7).1.robots "r2" =
      storeGet demoState.robots "r2" ∧
    (updateRobot demoState "r1"
        { status := some RobotStatus.delivering } 7).1.missions =
      demoState.missions := by
  have h := (C9_updateRobot_spec demoState "r1"
    { status := some RobotStatus.delivering } 7).2 demoRobot (by decide)
  obtain ⟨h1, _, _, _, _, h6, h7, h8⟩ := h
  exact ⟨h1, h6, h7 "r2" (by decide), h8⟩

/-! ### Claim C10: cancelling a robot whose mission record is missing -/

/-- Claim C10: if the robot exists and references a mission id absent from the
mission store, `cancelRobotMission` still returns `true` and idles the robot,
and the mission store is left entirely unchanged (no record created or
modified); the mission-marking write happens only when the referenced mission
exists. -/
theorem C10_cancel_dangling (s : ServerState) (rid : String) (now : Nat)
    (r : Robot) (m : String) (hr : storeGet s.robots rid = some r)
    (hm : r.currentMissionId = some m) (hmiss : storeGet s.missions m = none) :
    (cancelRobotMission s rid now).2 = true ∧
    (cancelRobotMission s rid now).1.missions = s.missions ∧
    storeGet (cancelRobotMission s rid now).1.robots rid =
      some (Robot.mk r.id RobotStatus.idle none now) := by
  rw [cancel_eq_dangling s rid now r m hr hm hmiss]
  refine ⟨rfl, updateRobot_missions s rid _ now, ?_⟩
  rw [storeGet_updateRobot_self s rid _ now r hr]
  rfl

/-- Witness for C10: a state whose robot `r1` points at a mission id that is
not in the store. -/
theorem C10_cancel_dangling_witness :
    (cancelRobotMission
      (ServerState.mk [("r1", demoRobot)] []) "r1" 9).2 = true ∧
    (cancelRobotMission
      (ServerState.mk [("r1", demoRobot)] []) "r1" 9).1.missions = [] ∧
    storeGet (cancelRobotMission
      (ServerState.mk [("r1", demoRobot)] []) "r1" 9).1.robots "r1" =
      some (Robot.mk "r1" RobotStatus.idle none 9) := by
  have h := C10_cancel_dangling (ServerState.mk [("r1", demoRobot)] []) "r1" 9
    demoRobot "m1" (by decide) (by decide) (by decide)
  exact ⟨h.1, h.2.1, h.2.2⟩

/-! ### Claim C4: cancellation contract and idempotence -/

/-- Claim C4: `cancelRobotMission` returns `false` — with no state change —
exactly when the robot id is unknown or the robot has no active mission; when
the robot has an active mission it returns `true`, idles the robot
(`status = idle`, `currentMissionId = null`, `lastUpdated` stamped), and, when
the referenced mission exists, marks it `cancelled`; and a second cancel on
the resulting state returns `false` and changes nothing. -/
theorem C4_cancel_spec (s : ServerState) (rid : String) (now : Nat) :
    ((cancelRobotMission s rid now).2 = false ↔
      storeGet s.robots rid = none ∨
        ∃ r, storeGet s.robots rid = some r ∧ r.currentMissionId = none) ∧
    ((cancelRobotMission s rid now).2 = false →
      (cancelRobotMission s rid now).1 = s) ∧
    (∀ r m, storeGet s.robots rid = some r → r.currentMissionId = some m →
      (cancelRobotMission s rid now).2 = true ∧
      storeGet (cancelRobotMission s rid now).1.robots rid =
        some (Robot.mk r.id RobotStatus.idle none now) ∧
      (∀ μ, storeGet s.missions m = some μ →
        storeGet (cancelRobotMission s rid now).1.missions m =
          some (cancelledMission μ)) ∧
      (∀ now', cancelRobotMission (cancelRobotMission s rid now).1 rid now' =
        ((cancelRobotMission s rid now).1, false))) := by
  cases hr : storeGet s.robots rid with
  | none =>
    rw [cancel_eq_no_robot s rid now hr]
    refine ⟨⟨fun _ => Or.inl rfl, fun _ => rfl⟩, fun _ => rfl, ?_⟩
    intro r m hr' _
    exact Option.noConfusion hr'
  | some r =>
    cases hm : r.currentMissionId with
    | none =>
      rw [cancel_eq_no_mid s rid now r hr hm]
      refine ⟨⟨fun _ => Or.inr ⟨r, rfl, hm⟩, fun _ => rfl⟩, fun _ => rfl, ?_⟩
      intro r' m hr' hm'
      obtain rfl : r = r' := Option.some_inj.mp hr'
      rw [hm] at hm'
      exact Option.noConfusion hm'
    | some m =>
      have htrue : (cancelRobotMission s rid now).2 = true ∧
          storeGet (cancelRobotMission s rid now).1.robots rid =
            some (Robot.mk r.id RobotStatus.idle none now) ∧
          (∀ μ, storeGet s.missions m = some μ →
            storeGet (cancelRobotMission s rid now).1.missions m =
              some (cancelledMission μ)) := by
        cases hmiss : storeGet s.missions m with
        | none =>
          rw [cancel_eq_dangling s rid now r m hr hm hmiss]
          dsimp only
          refine ⟨rfl, ?_, ?_⟩
          · rw [storeGet_updateRobot_self s rid _ now r hr]
            rfl
          · intro μ hμ
            exact Option.noConfusion hμ
        | some μ =>
          rw [cancel_eq_found s rid now r m μ hr hm hmiss]
          dsimp only
          refine ⟨rfl, ?_, ?_⟩
          · rw [storeGet_updateRobot_self
              (ServerState.mk s.robots (storeSet s.missions m (cancelledMission μ)))
              rid _ now r hr]
            rfl
          · intro μ' hμ'
            obtain rfl : μ = μ' := Option.some_inj.mp hμ'
            rw [updateRobot_missions]
            exact storeGet_storeSet_self _ _ _
      refine ⟨?_, ?_, ?_⟩
      · rw [htrue.1]
        constructor
        · intro hcontra
          exact Bool.noConfusion hcontra
        · intro hor
          rcases hor with hnone | ⟨r', hr', hmid'⟩
          · exact Option.noConfusion hnone
          · obtain rfl : r = r' := Option.some_inj.mp hr'
            rw [hm] at hmid'
            exact Option.noConfusion hmid'
      · intro hfalse
        rw [htrue.1] at hfalse
        exact Bool.noConfusion hfalse
      · intro r' m' hr' hm'
        obtain rfl : r = r' := Option.some_inj.mp hr'
        rw [hm] at hm'
        obtain rfl : m = m' := Option.some_inj.mp hm'
        refine ⟨htrue.1, htrue.2.1, htrue.2.2, ?_⟩
        intro now'
        exact cancel_eq_no_mid (cancelRobotMission s rid now).1 rid now'
          (Robot.mk r.id RobotStatus.idle none now) htrue.2.1 rfl

/-- Witness for C4 at `demoState`: cancelling `r1` (mid-`travel`) succeeds,
idles the robot, cancels the mission, and a second cancel returns `false` with
no further change. -/
theorem C4_cancel_spec_witness :
    (cancelRobotMission demoState "r1" 40000).2 = true ∧
    storeGet (cancelRobotMission demoState "r1" 40000).1.robots "r1" =
      some (Robot.mk "r1" RobotStatus.idle none 40000) ∧
    storeGet (cancelRobotMission demoState "r1" 40000).1.missions "m1" =
      some (cancelledMission demoMission) ∧
    cancelRobotMission (cancelRobotMission demoState "r1" 40000).1 "r1" 41000 =
      ((cancelRobotMission demoState "r1" 40000).1, false) := by
  have h := (C4_cancel_spec demoState "r1" 40000).2.2 demoRobot "m1"
    (by decide) (by decide)
  exact ⟨h.1, h.2.1, h.2.2.1 demoMission (by decide), h.2.2.2 41000⟩

/-! ### Claim C3: cancelled is absorbing for the advancement tick -/

theorem foldl_advance_robots_get (now : Nat) (l : List Robot) (k : String)
    (h : ∀ r' ∈ l, r'.currentMissionId = none ∨ r'.id ≠ k) (st : ServerState) :
    storeGet (l.foldl (advanceRobot now) st).robots k = storeGet st.robots k := by
  induction l generalizing st with
  | nil => rfl
  | cons r rest ih =>
    rw [List.foldl_cons]
    rw [ih (fun r' hm => h r' (List.mem_cons_of_mem _ hm))]
    exact advanceRobot_robots_frame now st r k (h r (List.mem_cons_self _ _))

theorem updateRobotStates_robots_idle_frame (s : ServerState) (now : Nat)
    (k : String) (r : Robot) (hwf : WFRobots s)
    (hr : storeGet s.robots k = some r) (hmid : r.currentMissionId = none) :
    storeGet (updateRobotStates s now).robots k = some r := by
  unfold updateRobotStates
  have h : ∀ r' ∈ getAllRobots s, r'.currentMissionId = none ∨ r'.id ≠ k := by
    intro r' hm
    by_cases hid : r'.id = k
    · left
      have hg := wf_storeGet_of_mem_values s r' hwf hm
      rw [hid, hr] at hg
      rw [← Option.some_inj.mp hg]
      exact hmid
    · right
      exact hid
  rw [foldl_advance_robots_get now (getAllRobots s) k h s]
  exact hr

/-- Claim C3: cancellation wins over in-flight advancement.  A mission whose
`currentStage` is `cancelled` is left with its whole record — in particular
`currentStage` and `stageStartTime` — unchanged by any invocation of
`updateRobotStates` (the advancement loop skips it before computing any
transition, so it is never moved to `delivery` or anywhere else), and a robot
that cancellation left idle (`currentMissionId = null`) is also left
untouched by the tick. -/
theorem C3_cancelled_absorbing (s : ServerState) (now : Nat) :
    (∀ m μ, storeGet s.missions m = some μ → μ.currentStage = Stage.cancelled →
      storeGet (updateRobotStates s now).missions m = some μ) ∧
    (WFRobots s → ∀ k r, storeGet s.robots k = some r →
      r.currentMissionId = none →
      storeGet (updateRobotStates s now).robots k = some r) := by
  constructor
  · intro m μ hm hc
    exact updateRobotStates_missions_cancelled s now m μ hm hc
  · intro hwf k r hr hmid
    exact updateRobotStates_robots_idle_frame s now k r hwf hr hmid

/-- A state in which `r1`'s mission was cancelled mid-`travel` and the robot
was idled, as the cancellation path leaves it. -/
def demoCancelledState : ServerState :=
  { robots := [("r1", Robot.mk "r1" RobotStatus.idle none 5)],
    missions := [("m1", Mission.mk "m1" (some "r1") 0 Stage.cancelled 1000)] }

/-- Witness for C3: a much-later advancement tick leaves the cancelled mission
record and the idled robot record exactly as they were. -/
theorem C3_cancelled_absorbing_witness :
    storeGet (updateRobotStates demoCancelledState 999999999).missions "m1" =
      some (Mission.mk "m1" (some "r1") 0 Stage.cancelled 1000) ∧
    storeGet (updateRobotStates demoCancelledState 999999999).robots "r1" =
      some (Robot.mk "r1" RobotStatus.idle none 5) := by
  have h := C3_cancelled_absorbing demoCancelledState 999999999
  exact ⟨h.1 "m1" (Mission.mk "m1" (some "r1") 0 Stage.cancelled 1000)
      (by decide) (by decide),
    h.2 (by constructor <;> decide) "r1" (Robot.mk "r1" RobotStatus.idle none 5)
      (by decide) (by decide)⟩

/-! ### Claim C2: the stage sequence of a non-cancelled mission -/

theorem advanceRobot_mission_progress (now : Nat) (st : ServerState) (r' : Robot)
    (m : String) (μ : Mission)
    (h : storeGet st.missions m = some μ ∨
      ∃ nxt, nextStage μ.currentStage = some nxt ∧
        storeGet st.missions m = some (advancedMission μ nxt now)) :
    storeGet (advanceRobot now st r').missions m = some μ ∨
      ∃ nxt, nextStage μ.currentStage = some nxt ∧
        storeGet (advanceRobot now st r').missions m =
          some (advancedMission μ nxt now) := by
  rcases advanceRobot_cases now st r' with heq |
    ⟨mid, mission, info, hmid, hg, hnc, hinfo, he, hbr⟩
  · rw [heq]
    exact h
  · rcases hbr with ⟨nxt', nextInfo, hnx, hni, heq⟩ | ⟨hnone, hcomp, heq⟩
    · rw [heq, updateRobot_missions]
      dsimp only
      by_cases hmm : m = mid
      · subst hmm
        rw [storeGet_storeSet_self]
        rcases h with h | ⟨nxt0, hnx0, h⟩
        · rw [h] at hg
          obtain rfl : μ = mission := Option.some_inj.mp hg
          exact Or.inr ⟨nxt', hnx, rfl⟩
        · rw [h] at hg
          obtain rfl : advancedMission μ nxt0 now = mission := Option.some_inj.mp hg
          have hstart : (advancedMission μ nxt0 now).stageStartTime = now := rfl
          rw [hstart] at he
          have hpos := missionStages_duration_pos
            (advancedMission μ nxt0 now).currentStage info hinfo
          omega
      · rw [storeGet_storeSet_ne _ _ _ _ hmm]
        exact h
    · rw [heq, updateRobot_missions]
      exact h

theorem updateRobotStates_mission_step (s : ServerState) (now : Nat) (m : String)
    (μ : Mission) (hm : storeGet s.missions m = some μ) :
    ∃ μ', storeGet (updateRobotStates s now).missions m = some μ' ∧
      (μ' = μ ∨ ∃ nxt, nextStage μ.currentStage = some nxt ∧
        μ' = advancedMission μ nxt now) := by
  unfold updateRobotStates
  have h := foldl_advance_preserve now
    (fun st => storeGet st.missions m = some μ ∨
      ∃ nxt, nextStage μ.currentStage = some nxt ∧
        storeGet st.missions m = some (advancedMission μ nxt now))
    (getAllRobots s)
    (fun st robot _ hP => advanceRobot_mission_progress now st robot m μ hP)
    s (Or.inl hm)
  rcases h with h | ⟨nxt, hnx, h⟩
  · exact ⟨μ, h, Or.inl rfl⟩
  · exact ⟨advancedMission μ nxt now, h, Or.inr ⟨nxt, hnx, rfl⟩⟩

/-- Claim C2: for a mission that is not cancelled, each advancement tick either
leaves its `currentStage` unchanged or moves it to the successor in the fixed
sequence `preparation → travel → delivery → completed` (so no stage is skipped
and none revisited), a mission whose stage is `completed` is left with its
whole record unchanged, and over any run of advancement ticks the observed
stage evolves along the reflexive-transitive closure of that successor
relation, starting from the mission's current stage. -/
theorem C2_stage_sequence (s : ServerState) (now : Nat) (m : String)
    (μ : Mission) (hm : storeGet s.missions m = some μ)
    (hnc : μ.currentStage ≠ Stage.cancelled) :
    (∃ μ', storeGet (updateRobotStates s now).missions m = some μ' ∧
      (μ'.currentStage = μ.currentStage ∨
        nextStage μ.currentStage = some μ'.currentStage) ∧
      (μ.currentStage = Stage.completed → μ' = μ)) ∧
    (∀ ts, ∃ μ', storeGet (runTicks s ts).missions m = some μ' ∧
      Relation.ReflTransGen (fun a b => nextStage a = some b)
        μ.currentStage μ'.currentStage ∧
      (μ.currentStage = Stage.completed → μ' = μ)) := by
  constructor
  · obtain ⟨μ', hget, hstep⟩ := updateRobotStates_mission_step s now m μ hm
    refine ⟨μ', hget, ?_, ?_⟩
    · rcases hstep with rfl | ⟨nxt, hnx, rfl⟩
      · exact Or.inl rfl
      · exact Or.inr hnx
    · intro hcomp
      rcases hstep with rfl | ⟨nxt, hnx, rfl⟩
      · rfl
      · rw [hcomp, nextStage_completed] at hnx
        exact Option.noConfusion hnx
  · intro ts
    induction ts generalizing s μ with
    | nil => exact ⟨μ, hm, Relation.ReflTransGen.refl, fun _ => rfl⟩
    | cons t rest ih =>
      obtain ⟨μ₁, hget₁, hstep₁⟩ := updateRobotStates_mission_step s t m μ hm
      have h₁nc : μ₁.currentStage ≠ Stage.cancelled := by
        rcases hstep₁ with rfl | ⟨nxt, hnx, rfl⟩
        · exact hnc
        · exact nextStage_ne_cancelled _ _ hnx
      obtain ⟨μ', hget', hreach', habs'⟩ :=
        ih (updateRobotStates s t) μ₁ hget₁ h₁nc
      refine ⟨μ', hget', ?_, ?_⟩
      · rcases hstep₁ with rfl | ⟨nxt, hnx, rfl⟩
        · exact hreach'
        · exact Relation.ReflTransGen.head hnx hreach'
      · intro hcomp
        rcases hstep₁ with rfl | ⟨nxt, hnx, rfl⟩
        · exact habs' hcomp
        · rw [hcomp, nextStage_completed] at hnx
          exact Option.noConfusion hnx

/-- Witness for C2 at `demoState`: the `travel` mission `m1`, with a tick far
past its deadline, steps only to `delivery` and satisfies the run-level
closure statement. -/
theorem C2_stage_sequence_witness :
    (∃ μ', storeGet (updateRobotStates demoState 200000).missions "m1" = some μ' ∧
      (μ'.currentStage = demoMission.currentStage ∨
        nextStage demoMission.currentStage = some μ'.currentStage) ∧
      (demoMission.currentStage = Stage.completed → μ' = demoMission)) ∧
    (∀ ts, ∃ μ', storeGet (runTicks demoState ts).missions "m1" = some μ' ∧
      Relation.ReflTransGen (fun a b => nextStage a = some b)
        demoMission.currentStage μ'.currentStage ∧
      (demoMission.currentStage = Stage.completed → μ' = demoMission)) :=
  C2_stage_sequence demoState 200000 "m1" demoMission (by decide) (by decide)

/-! ### Claim C6: mission creation batching -/

theorem missionId_zero_ne_one (now : Nat) : missionId now 0 ≠ missionId now 1 := by
  intro h
  unfold missionId at h
  have h0 : (toString (0 : Nat)) = "0" := rfl
  have h1 : (toString (1 : Nat)) = "1" := rfl
  rw [h0, h1] at h
  have hd := congrArg String.data h
  rw [String.data_append, String.data_append] at hd
  have := List.append_cancel_left hd
  exact absurd this (by decide)

theorem wf_idle_ids_nodup (s : ServerState) (hwf : WFRobots s) :
    ((getIdleRobots s).map (fun r => r.id)).Nodup := by
  have h1 : (getAllRobots s).map (fun r => r.id) = s.robots.map Prod.fst := by
    unfold getAllRobots
    rw [List.map_map]
    exact List.map_congr_left hwf.2
  have h2 : ((getAllRobots s).map (fun r => r.id)).Nodup := h1 ▸ hwf.1
  exact h2.sublist ((List.filter_sublist (getAllRobots s)).map _)

theorem createStep_eq (now : Nat) (st : ServerState) (i : Nat) (robot w : Robot)
    (hw : storeGet st.robots robot.id = some w) :
    createStep now st (i, robot) =
      ServerState.mk
        (storeSet st.robots robot.id
          (Robot.mk w.id RobotStatus.assigned (some (missionId now i)) now))
        (storeSet st.missions (missionId now i)
          (Mission.mk (missionId now i) (some robot.id) now Stage.preparation now)) := by
  simp [createStep, updateRobot, hw, applyUpdate]

theorem createNewMissions_eq_nil (s : ServerState) (now : Nat)
    (hl : getIdleRobots s = []) : createNewMissions s now = s := by
  unfold createNewMissions
  rw [hl]
  rfl

theorem createNewMissions_eq_one (s : ServerState) (now : Nat) (a : Robot)
    (hl : getIdleRobots s = [a]) :
    createNewMissions s now = createStep now s (0, a) := by
  unfold createNewMissions
  rw [hl]
  rfl

theorem createNewMissions_eq_two (s : ServerState) (now : Nat) (a b : Robot)
    (t : List Robot) (hl : getIdleRobots s = a :: b :: t) :
    createNewMissions s now = createStep now (createStep now s (0, a)) (1, b) := by
  unfold createNewMissions
  rw [hl]
  have hmin : min 2 (a :: b :: t).length = 2 := by simp
  dsimp only
  rw [hmin]
  rfl

/-- Claim C6: one invocation of `createNewMissions` creates exactly
`min 2 (number of idle robots)` new missions — none when no robot is idle (and
the call is a no-op), one per idle robot below the batch size — taking robots
in Registry iteration order (`idleRobots[i]`); each created mission starts in
`preparation`, is bound to its robot, and the robot is immediately set to
`assigned` with `currentMissionId` the new mission id; and with at least two
idle robots the two created missions have distinct ids and distinct
`assignedRobotId`s. -/
theorem C6_create_batching (s : ServerState) (now : Nat) (hwf : WFRobots s)
    (hf0 : storeGet s.missions (missionId now 0) = none)
    (hf1 : storeGet s.missions (missionId now 1) = none) :
    (createNewMissions s now).missions.length =
      s.missions.length + min 2 (getIdleRobots s).length ∧
    ((getIdleRobots s).length = 0 → createNewMissions s now = s) ∧
    (∀ i robot, i < min 2 (getIdleRobots s).length →
      (getIdleRobots s)[i]? = some robot →
      storeGet (createNewMissions s now).missions (missionId now i) =
        some (Mission.mk (missionId now i) (some robot.id) now
          Stage.preparation now) ∧
      storeGet (createNewMissions s now).robots robot.id =
        some (Robot.mk robot.id RobotStatus.assigned
          (some (missionId now i)) now)) ∧
    (2 ≤ (getIdleRobots s).length →
      missionId now 0 ≠ missionId now 1 ∧
      ∀ a b, (getIdleRobots s)[0]? = some a → (getIdleRobots s)[1]? = some b →
        a.id ≠ b.id) := by
  cases hl : getIdleRobots s with
  | nil =>
    rw [createNewMissions_eq_nil s now hl]
    refine ⟨by simp, fun _ => rfl, ?_, ?_⟩
    · intro i robot hi _
      simp at hi
    · intro h2
      simp at h2
  | cons a rest =>
    have ha : a ∈ getIdleRobots s := by
      rw [hl]
      exact List.mem_cons_self _ _
    have hga : storeGet s.robots a.id = some a :=
      wf_storeGet_of_mem_values s a hwf (List.mem_of_mem_filter ha)
    cases rest with
    | nil =>
      rw [createNewMissions_eq_one s now a hl, createStep_eq now s 0 a a hga]
      refine ⟨?_, ?_, ?_, ?_⟩
      · dsimp only
        rw [storeSet_length_of_none s.missions _ _ hf0]
        simp
      · intro h
        simp at h
      · intro i robot hi hidx
        have hi0 : i = 0 := by
          have : i < 1 := by simpa using hi
          omega
        subst hi0
        simp at hidx
        subst hidx
        constructor
        · exact storeGet_storeSet_self _ _ _
        · exact storeGet_storeSet_self _ _ _
      · intro h2
        simp at h2
    | cons b t =>
      have hb : b ∈ getIdleRobots s := by
        rw [hl]
        exact List.mem_cons_of_mem _ (List.mem_cons_self _ _)
      have hgb : storeGet s.robots b.id = some b :=
        wf_storeGet_of_mem_values s b hwf (List.mem_of_mem_filter hb)
      have hndids := wf_idle_ids_nodup s hwf
      rw [hl] at hndids
      have hab : a.id ≠ b.id := by
        rw [List.map_cons, List.map_cons] at hndids
        have h1 := (List.nodup_cons.mp hndids).1
        intro he
        exact h1 (by rw [he]; exact List.mem_cons_self _ _)
      have hne10 : missionId now 1 ≠ missionId now 0 :=
        Ne.symm (missionId_zero_ne_one now)
      have hgb1 : storeGet (ServerState.mk
          (storeSet s.robots a.id
            (Robot.mk a.id RobotStatus.assigned (some (missionId now 0)) now))
          (storeSet s.missions (missionId now 0)
            (Mission.mk (missionId now 0) (some a.id) now
              Stage.preparation now))).robots b.id = some b := by
        dsimp only
        rw [storeGet_storeSet_ne s.robots a.id b.id _ (Ne.symm hab)]
        exact hgb
      rw [createNewMissions_eq_two s now a b t hl, createStep_eq now s 0 a a hga,
        createStep_eq now _ 1 b b hgb1]
      have hm1 : storeGet (storeSet s.missions (missionId now 0)
          (Mission.mk (missionId now 0) (some a.id) now Stage.preparation now))
          (missionId now 1) = none := by
        rw [storeGet_storeSet_ne _ _ _ _ hne10]
        exact hf1
      have hmin2 : min 2 (a :: b :: t).length = 2 := by simp
      refine ⟨?_, ?_, ?_, ?_⟩
      · dsimp only
        rw [storeSet_length_of_none _ _ _ hm1, storeSet_length_of_none _ _ _ hf0,
          hmin2]
      · intro h
        simp at h
      · intro i robot hi hidx
        rw [hmin2] at hi
        interval_cases i
        · simp at hidx
          subst hidx
          constructor
          · dsimp only
            rw [storeGet_storeSet_ne _ _ _ _ (missionId_zero_ne_one now)]
            exact storeGet_storeSet_self _ _ _
          · dsimp only
            rw [storeGet_storeSet_ne _ _ _ _ hab]
            exact storeGet_storeSet_self _ _ _
        · simp at hidx
          subst hidx
          constructor
          · exact storeGet_storeSet_self _ _ _
          · exact storeGet_storeSet_self _ _ _
      · intro _
        refine ⟨missionId_zero_ne_one now, ?_⟩
        intro a' b' ha' hb'
        simp at ha' hb'
        rw [← ha', ← hb']
        exact hab

/-- A state with exactly two robots, both idle, and no missions. -/
def demoTwoIdle : ServerState :=
  { robots := [("r1", Robot.mk "r1" RobotStatus.idle none 0),
               ("r2", Robot.mk "r2" RobotStatus.idle none 0)],
    missions := [] }

/-- Witness for C6: with two idle robots a creation tick at time 77 creates
exactly two missions with distinct ids for distinct robots. -/
theorem C6_create_batching_witness :
    (createNewMissions demoTwoIdle 77).missions.length =
      demoTwoIdle.missions.length + min 2 (getIdleRobots demoTwoIdle).length ∧
    ((getIdleRobots demoTwoIdle).length = 0 →
      createNewMissions demoTwoIdle 77 = demoTwoIdle) ∧
    (∀ i robot, i < min 2 (getIdleRobots demoTwoIdle).length →
      (getIdleRobots demoTwoIdle)[i]? = some robot →
      storeGet (createNewMissions demoTwoIdle 77).missions (missionId 77 i) =
        some (Mission.mk (missionId 77 i) (some robot.id) 77
          Stage.preparation 77) ∧
      storeGet (createNewMissions demoTwoIdle 77).robots robot.id =
        some (Robot.mk robot.id RobotStatus.assigned
          (some (missionId 77 i)) 77)) ∧
    (2 ≤ (getIdleRobots demoTwoIdle).length →
      missionId 77 0 ≠ missionId 77 1 ∧
      ∀ a b, (getIdleRobots demoTwoIdle)[0]? = some a →
        (getIdleRobots demoTwoIdle)[1]? = some b → a.id ≠ b.id) :=
  C6_create_batching demoTwoIdle 77 (by constructor <;> decide)
    (by decide) (by decide)

/-! ### Claim C1: the idle/mission-reference invariant over all reachable states -/

theorem missionStages_robotStatus_ne_idle (σ : Stage) (info : StageInfo)
    (h : missionStages σ = some info) :
    info.robotStatus ≠ RobotStatus.idle := by
  cases σ <;> simp [missionStages] at h <;> simp [← h]

theorem advanceRobot_preserves_invidle (now : Nat) (st : ServerState) (r₀ : Robot)
    (hlive : storeGet st.robots r₀.id = some r₀) (hinv : InvIdle st) :
    InvIdle (advanceRobot now st r₀) := by
  rcases advanceRobot_cases now st r₀ with heq |
    ⟨mid, mission, info, hmid, hg, hnc, hinfo, he, hbr⟩
  · rw [heq]
    exact hinv
  · rcases hbr with ⟨nxt, nextInfo, hnx, hni, heq⟩ | ⟨hnone, hcomp, heq⟩
    · rw [heq]
      apply invIdle_updateRobot_statusOnly _ _ _ _ nextInfo.robotStatus rfl
        (missionStages_robotStatus_ne_idle nxt nextInfo hni) rfl
      · intro w hw
        have : w = r₀ := by
          rw [hlive] at hw
          exact (Option.some_inj.mp hw).symm
        rw [this, hmid]
        simp
      · exact hinv
    · rw [heq]
      exact invIdle_updateRobot_pair _ _ _ _ RobotStatus.idle none rfl rfl
        (by simp) hinv

theorem foldl_advance_invidle (now : Nat) (rs : List Robot) :
    ∀ st, (∀ r' ∈ rs, storeGet st.robots r'.id = some r') →
      (rs.map (fun r => r.id)).Nodup → InvIdle st →
      InvIdle (rs.foldl (advanceRobot now) st) := by
  induction rs with
  | nil =>
    intro st _ _ h
    exact h
  | cons r₀ rest ih =>
    intro st hlive hnd hinv
    rw [List.map_cons] at hnd
    obtain ⟨hnotin, hnd'⟩ := List.nodup_cons.mp hnd
    rw [List.foldl_cons]
    apply ih
    · intro r' hr'
      have hne : r₀.id ≠ r'.id := by
        intro he
        exact hnotin (he ▸ List.mem_map.mpr ⟨r', hr', rfl⟩)
      rw [advanceRobot_robots_frame now st r₀ r'.id (Or.inr hne)]
      exact hlive r' (List.mem_cons_of_mem _ hr')
    · exact hnd'
    · exact advanceRobot_preserves_invidle now st r₀
        (hlive r₀ (List.mem_cons_self _ _)) hinv

theorem wf_values_ids (s : ServerState) (hwf : WFRobots s) :
    (getAllRobots s).map (fun r => r.id) = s.robots.map Prod.fst := by
  unfold getAllRobots
  rw [List.map_map]
  exact List.map_congr_left hwf.2

theorem updateRobotStates_preserves_invidle (s : ServerState) (now : Nat)
    (hwf : WFRobots s) (hinv : InvIdle s) :
    InvIdle (updateRobotStates s now) := by
  unfold updateRobotStates
  apply foldl_advance_invidle now (getAllRobots s) s
  · intro r' hr'
    exact wf_storeGet_of_mem_values s r' hwf hr'
  · rw [wf_values_ids s hwf]
    exact hwf.1
  · exact hinv

theorem createStep_preserves_wf (now : Nat) (st : ServerState) (p : Nat × Robot)
    (hwf : WFRobots st) : WFRobots (createStep now st p) := by
  unfold createStep
  dsimp only
  apply updateRobot_preserves_wf _ _ _ _ rfl
  exact ⟨hwf.1, hwf.2⟩

theorem createStep_preserves_invidle (now : Nat) (st : ServerState)
    (p : Nat × Robot) (hinv : InvIdle st) : InvIdle (createStep now st p) := by
  unfold createStep
  dsimp only
  apply invIdle_updateRobot_pair _ _ _ _ RobotStatus.assigned
    (some (missionId now p.1)) rfl rfl (by simp)
  exact hinv

theorem foldl_create_preserve (now : Nat) (P : ServerState → Prop)
    (hstep : ∀ st p, P st → P (createStep now st p)) :
    ∀ (l : List (Nat × Robot)) st, P st → P (l.foldl (createStep now) st) := by
  intro l
  induction l with
  | nil =>
    intro st h
    exact h
  | cons p rest ih =>
    intro st h
    exact ih _ (hstep st p h)

theorem createNewMissions_preserves_wf (s : ServerState) (now : Nat)
    (hwf : WFRobots s) : WFRobots (createNewMissions s now) := by
  unfold createNewMissions
  dsimp only
  exact foldl_create_preserve now WFRobots
    (fun st p h => createStep_preserves_wf now st p h) _ s hwf

theorem createNewMissions_preserves_invidle (s : ServerState) (now : Nat)
    (hinv : InvIdle s) : InvIdle (createNewMissions s now) := by
  unfold createNewMissions
  dsimp only
  exact foldl_create_preserve now InvIdle
    (fun st p h => createStep_preserves_invidle now st p h) _ s hinv

theorem cancel_preserves_wf (s : ServerState) (rid : String) (now : Nat)
    (hwf : WFRobots s) : WFRobots (cancelRobotMission s rid now).1 := by
  cases hr : storeGet s.robots rid with
  | none =>
    rw [cancel_eq_no_robot s rid now hr]
    exact hwf
  | some r =>
    cases hm : r.currentMissionId with
    | none =>
      rw [cancel_eq_no_mid s rid now r hr hm]
      exact hwf
    | some m =>
      cases hmiss : storeGet s.missions m with
      | none =>
        rw [cancel_eq_dangling s rid now r m hr hm hmiss]
        dsimp only
        exact updateRobot_preserves_wf s rid _ now rfl hwf
      | some μ =>
        rw [cancel_eq_found s rid now r m μ hr hm hmiss]
        dsimp only
        exact updateRobot_preserves_wf _ rid _ now rfl ⟨hwf.1, hwf.2⟩

theorem cancel_preserves_invidle (s : ServerState) (rid : String) (now : Nat)
    (hinv : InvIdle s) : InvIdle (cancelRobotMission s rid now).1 := by
  cases hr : storeGet s.robots rid with
  | none =>
    rw [cancel_eq_no_robot s rid now hr]
    exact hinv
  | some r =>
    cases hm : r.currentMissionId with
    | none =>
      rw [cancel_eq_no_mid s rid now r hr hm]
      exact hinv
    | some m =>
      cases hmiss : storeGet s.missions m with
      | none =>
        rw [cancel_eq_dangling s rid now r m hr hm hmiss]
        dsimp only
        exact invIdle_updateRobot_pair s rid _ now RobotStatus.idle none rfl rfl
          (by simp) hinv
      | some μ =>
        rw [cancel_eq_found s rid now r m μ hr hm hmiss]
        dsimp only
        exact invIdle_updateRobot_pair _ rid _ now RobotStatus.idle none rfl rfl
          (by simp) hinv

theorem initializeRobots_wf (now : Nat) : WFRobots (initializeRobots now) := by
  constructor
  · have h : (initializeRobots now).robots.map Prod.fst =
        (List.range 100).map (fun i => robotName (i + 1)) := by
      simp [initializeRobots]
    rw [h]
    decide
  · intro p hp
    simp only [initializeRobots, List.mem_map, List.mem_range] at hp
    obtain ⟨i, _, rfl⟩ := hp
    rfl

theorem initializeRobots_invidle (now : Nat) : InvIdle (initializeRobots now) := by
  intro p hp
  simp only [initializeRobots, List.mem_map, List.mem_range] at hp
  obtain ⟨i, _, rfl⟩ := hp
  simp [RobotConsistent]

/-- The states the server can be in: the initialized fleet, followed by any
sequence of creation ticks, advancement ticks and cancellations. -/
inductive Reachable : ServerState → Prop
  | init : ∀ now, Reachable (initializeRobots now)
  | create : ∀ s now, Reachable s → Reachable (createNewMissions s now)
  | advance : ∀ s now, Reachable s → Reachable (updateRobotStates s now)
  | cancel : ∀ s rid now, Reachable s → Reachable ((cancelRobotMission s rid now).1)

theorem reachable_wf_invidle (s : ServerState) (h : Reachable s) :
    WFRobots s ∧ InvIdle s := by
  induction h with
  | init now => exact ⟨initializeRobots_wf now, initializeRobots_invidle now⟩
  | create s now _ ih =>
    exact ⟨createNewMissions_preserves_wf s now ih.1,
      createNewMissions_preserves_invidle s now ih.2⟩
  | advance s now _ ih =>
    exact ⟨updateRobotStates_preserves_wf s now ih.1,
      updateRobotStates_preserves_invidle s now ih.1 ih.2⟩
  | cancel s rid now _ ih =>
    exact ⟨cancel_preserves_wf s rid now ih.1,
      cancel_preserves_invidle s rid now ih.2⟩

/-- Claim C1: in every state reachable from the initialized fleet by any
sequence of `createNewMissions`, `updateRobotStates` and `cancelRobotMission`
invocations, every robot's `status` is `idle` exactly when its
`currentMissionId` is null, and the robot references at most one mission. -/
theorem C1_idle_iff_unassigned (s : ServerState) (h : Reachable s) :
    ∀ k r, storeGet s.robots k = some r →
      (r.status = RobotStatus.idle ↔ r.currentMissionId = none) ∧
      (∀ m₁ m₂, r.currentMissionId = some m₁ → r.currentMissionId = some m₂ →
        m₁ = m₂) := by
  intro k r hr
  refine ⟨(reachable_wf_invidle s h).2 (k, r)
    (mem_of_storeGet_eq_some _ _ _ hr), ?_⟩
  intro m₁ m₂ h1 h2
  rw [h1] at h2
  exact Option.some_inj.mp h2

/-- Witness for C1: after a creation tick on the initialized fleet, `robot-1`
is `assigned` with the first fresh mission id — consistent with the
invariant. -/
theorem C1_idle_iff_unassigned_witness :
    ((Robot.mk (robotName 1) RobotStatus.assigned (some (missionId 5 0)) 5).status =
        RobotStatus.idle ↔
      (Robot.mk (robotName 1) RobotStatus.assigned
        (some (missionId 5 0)) 5).currentMissionId = none) ∧
    (∀ m₁ m₂,
      (Robot.mk (robotName 1) RobotStatus.assigned
        (some (missionId 5 0)) 5).currentMissionId = some m₁ →
      (Robot.mk (robotName 1) RobotStatus.assigned
        (some (missionId 5 0)) 5).currentMissionId = some m₂ → m₁ = m₂) :=
  C1_idle_iff_unassigned (createNewMissions (initializeRobots 0) 5)
    (Reachable.create _ 5 (Reachable.init 0)) (robotName 1)
    (Robot.mk (robotName 1) RobotStatus.assigned (some (missionId 5 0)) 5)
    (by decide)

/-! ### Claim C5: exact behaviour of one advancement tick on one robot -/

theorem foldl_advance_missions_get (now : Nat) (l : List Robot) (m : String)
    (h : ∀ r' ∈ l, r'.currentMissionId ≠ some m) (st : ServerState) :
    storeGet (l.foldl (advanceRobot now) st).missions m =
      storeGet st.missions m := by
  induction l generalizing st with
  | nil => rfl
  | cons r rest ih =>
    rw [List.foldl_cons, ih (fun r' hm' => h r' (List.mem_cons_of_mem _ hm')),
      advanceRobot_missions_frame now st r m (h r (List.mem_cons_self _ _))]

theorem advance_tick_spec (s : ServerState) (now : Nat) (k m : String)
    (r : Robot) (μ : Mission) (info : StageInfo)
    (hwf : WFRobots s) (hnoref : NoRefExcept s k m)
    (hr : storeGet s.robots k = some r) (hmid : r.currentMissionId = some m)
    (hμ : storeGet s.missions m = some μ)
    (hnc : μ.currentStage ≠ Stage.cancelled)
    (hinfo : missionStages μ.currentStage = some info) :
    (info.duration * 1000 ≤ now - μ.stageStartTime →
      (∀ nxt nextInfo, nextStage μ.currentStage = some nxt →
        missionStages nxt = some nextInfo →
        storeGet (updateRobotStates s now).missions m =
          some (advancedMission μ nxt now) ∧
        storeGet (updateRobotStates s now).robots k =
          some (Robot.mk r.id nextInfo.robotStatus r.currentMissionId now)) ∧
      (μ.currentStage = Stage.completed →
        storeGet (updateRobotStates s now).robots k =
          some (Robot.mk r.id RobotStatus.idle none now) ∧
        storeGet (updateRobotStates s now).missions m = some μ)) ∧
    (¬ info.duration * 1000 ≤ now - μ.stageStartTime →
      storeGet (updateRobotStates s now).robots k = some r ∧
      storeGet (updateRobotStates s now).missions m = some μ) := by
  have hmemkr : (k, r) ∈ s.robots := mem_of_storeGet_eq_some _ _ _ hr
  obtain ⟨e₁, e₂, hsplit⟩ := List.append_of_mem hmemkr
  have hrid : r.id = k := hwf.2 (k, r) hmemkr
  have hnd := hwf.1
  rw [hsplit, List.map_append, List.map_cons] at hnd
  obtain ⟨hnd1, hnd2, hdisj⟩ := List.nodup_append.mp hnd
  have hk1 : k ∉ e₁.map Prod.fst := fun hh => hdisj hh (List.mem_cons_self _ _)
  have hk2 : k ∉ e₂.map Prod.fst := (List.nodup_cons.mp hnd2).1
  have hmem1 : ∀ p ∈ e₁, p ∈ s.robots := fun p hp =>
    hsplit ▸ List.mem_append_left _ hp
  have hmem2 : ∀ p ∈ e₂, p ∈ s.robots := fun p hp =>
    hsplit ▸ List.mem_append_right _ (List.mem_cons_of_mem _ hp)
  have hcondr : ∀ (e : List (String × Robot)), (∀ p ∈ e, p ∈ s.robots) →
      k ∉ e.map Prod.fst →
      ∀ r' ∈ e.map (fun p => p.2),
        (r'.currentMissionId = none ∨ r'.id ≠ k) ∧
        r'.currentMissionId ≠ some m := by
    intro e hmem hk r' hr'
    obtain ⟨p, hp, rfl⟩ := List.mem_map.mp hr'
    have hpk : p.1 ≠ k := fun hh => hk (hh ▸ List.mem_map.mpr ⟨p, hp, rfl⟩)
    have hpid : p.2.id = p.1 := hwf.2 p (hmem p hp)
    exact ⟨Or.inr (by rw [hpid]; exact hpk), hnoref p (hmem p hp) hpk⟩
  have hfold : updateRobotStates s now =
      (e₂.map (fun p => p.2)).foldl (advanceRobot now)
        (advanceRobot now ((e₁.map (fun p => p.2)).foldl (advanceRobot now) s)
          r) := by
    unfold updateRobotStates getAllRobots
    rw [hsplit, List.map_append, List.map_cons, List.foldl_append,
      List.foldl_cons]
  set st₁ := (e₁.map (fun p => p.2)).foldl (advanceRobot now) s with hst₁
  have hget1r : storeGet st₁.robots k = some r := by
    rw [hst₁, foldl_advance_robots_get now _ k
      (fun r' h' => (hcondr e₁ hmem1 hk1 r' h').1) s]
    exact hr
  have hget1m : storeGet st₁.missions m = some μ := by
    rw [hst₁, foldl_advance_missions_get now _ m
      (fun r' h' => (hcondr e₁ hmem1 hk1 r' h').2) s]
    exact hμ
  have hcond2r : ∀ r' ∈ e₂.map (fun p => p.2),
      r'.currentMissionId = none ∨ r'.id ≠ k :=
    fun r' h' => (hcondr e₂ hmem2 hk2 r' h').1
  have hcond2m : ∀ r' ∈ e₂.map (fun p => p.2), r'.currentMissionId ≠ some m :=
    fun r' h' => (hcondr e₂ hmem2 hk2 r' h').2
  constructor
  · intro he
    constructor
    · intro nxt nextInfo hnx hni
      have hstep := advanceRobot_eq_advance now st₁ r m μ info nextInfo nxt
        hmid hget1m hnc hinfo he hnx hni
      rw [hfold]
      constructor
      · rw [foldl_advance_missions_get now _ m hcond2m, hstep,
          updateRobot_missions]
        dsimp only
        exact storeGet_storeSet_self _ _ _
      · rw [foldl_advance_robots_get now _ k hcond2r, hstep]
        have hget' : storeGet (ServerState.mk st₁.robots
            (storeSet st₁.missions m (advancedMission μ nxt now))).robots r.id =
            some r := by
          dsimp only
          rw [hrid]
          exact hget1r
        rw [← hrid, storeGet_updateRobot_self _ r.id _ now r hget']
        rfl
    · intro hcomp
      have hnxnone : nextStage μ.currentStage = none := by
        rw [hcomp]
        exact nextStage_completed
      have hstep := advanceRobot_eq_complete now st₁ r m μ info
        hmid hget1m hnc hinfo he hnxnone
      rw [hfold]
      constructor
      · rw [foldl_advance_robots_get now _ k hcond2r, hstep]
        have hget' : storeGet st₁.robots r.id = some r := by
          rw [hrid]
          exact hget1r
        rw [← hrid, storeGet_updateRobot_self st₁ r.id _ now r hget']
        rfl
      · rw [foldl_advance_missions_get now _ m hcond2m, hstep,
          updateRobot_missions]
        exact hget1m
  · intro he
    have hstep := advanceRobot_eq_skip_notyet now st₁ r m μ info
      hmid hget1m hnc hinfo he
    rw [hfold]
    constructor
    · rw [foldl_advance_robots_get now _ k hcond2r, hstep]
      exact hget1r
    · rw [foldl_advance_missions_get now _ m hcond2m, hstep]
      exact hget1m

/-- Claim C5: one advancement tick, for a robot bound to an existing,
non-cancelled mission (in a well-formed store where no other robot references
that mission): if the elapsed time since `stageStartTime` has reached the
stage table's duration (preparation 30s, travel 150s, delivery 60s,
completed 5s — restated below), then when a next stage exists the mission
moves to it with `stageStartTime` reset to `now` and the robot's status is set
to the table's status for the new stage; when the current stage is `completed`
the robot is instead idled (`status = idle`, `currentMissionId = null`) while
the mission stays `completed`; and below the duration neither the robot's nor
the mission's record changes. -/
theorem C5_tick_behaviour (s : ServerState) (now : Nat) (k m : String)
    (r : Robot) (μ : Mission) (info : StageInfo)
    (hwf : WFRobots s) (hnoref : NoRefExcept s k m)
    (hr : storeGet s.robots k = some r) (hmid : r.currentMissionId = some m)
    (hμ : storeGet s.missions m = some μ)
    (hnc : μ.currentStage ≠ Stage.cancelled)
    (hinfo : missionStages μ.currentStage = some info) :
    (missionStages Stage.preparation =
        some (StageInfo.mk 30 RobotStatus.assigned) ∧
      missionStages Stage.travel = some (StageInfo.mk 150 RobotStatus.en_route) ∧
      missionStages Stage.delivery =
        some (StageInfo.mk 60 RobotStatus.delivering) ∧
      missionStages Stage.completed =
        some (StageInfo.mk 5 RobotStatus.completed)) ∧
    (info.duration * 1000 ≤ now - μ.stageStartTime →
      (∀ nxt nextInfo, nextStage μ.currentStage = some nxt →
        missionStages nxt = some nextInfo →
        storeGet (updateRobotStates s now).missions m =
          some (advancedMission μ nxt now) ∧
        storeGet (updateRobotStates s now).robots k =
          some (Robot.mk r.id nextInfo.robotStatus r.currentMissionId now)) ∧
      (μ.currentStage = Stage.completed →
        storeGet (updateRobotStates s now).robots k =
          some (Robot.mk r.id RobotStatus.idle none now) ∧
        storeGet (updateRobotStates s now).missions m = some μ)) ∧
    (¬ info.duration * 1000 ≤ now - μ.stageStartTime →
      storeGet (updateRobotStates s now).robots k = some r ∧
      storeGet (updateRobotStates s now).missions m = some μ) := by
  obtain ⟨h1, h2⟩ := advance_tick_spec s now k m r μ info hwf hnoref hr hmid hμ
    hnc hinfo
  exact ⟨⟨rfl, rfl, rfl, rfl⟩, h1, h2⟩

/-- Witness for C5 at `demoState`: a tick at 200000ms, 199s into the 150s
`travel` stage, moves mission `m1` to `delivery` with `stageStartTime` reset
and sets `r1` to `delivering`. -/
theorem C5_tick_behaviour_witness :
    storeGet (updateRobotStates demoState 200000).missions "m1" =
      some (advancedMission demoMission Stage.delivery 200000) ∧
    storeGet (updateRobotStates demoState 200000).robots "r1" =
      some (Robot.mk "r1" RobotStatus.delivering (some "m1") 200000) := by
  have h := C5_tick_behaviour demoState 200000 "r1" "m1" demoRobot demoMission
    (StageInfo.mk 150 RobotStatus.en_route)
    (by constructor <;> decide)
    (by unfold NoRefExcept; decide)
    (by decide) (by decide) (by decide) (by decide) (by decide)
  have h2 := (h.2.1 (by decide)).1 Stage.delivery
    (StageInfo.mk 60 RobotStatus.delivering) (by decide) (by decide)
  exact ⟨h2.1, h2.2⟩

/-! ### Claim C7: bounded overshoot of a stage under periodic ticks -/

theorem run_pre_deadline (k m : String) (r : Robot) (μ : Mission)
    (info : StageInfo) (hmid : r.currentMissionId = some m)
    (hnc : μ.currentStage ≠ Stage.cancelled)
    (hinfo : missionStages μ.currentStage = some info) :
    ∀ (ts : List Nat) (s : ServerState), WFRobots s → NoRefExcept s k m →
      storeGet s.robots k = some r → storeGet s.missions m = some μ →
      (∀ t' ∈ ts, ¬ info.duration * 1000 ≤ t' - μ.stageStartTime) →
      WFRobots (runTicks s ts) ∧ NoRefExcept (runTicks s ts) k m ∧
      storeGet (runTicks s ts).robots k = some r ∧
      storeGet (runTicks s ts).missions m = some μ := by
  intro ts
  induction ts with
  | nil =>
    intro s hwf hnoref hr hμ _
    exact ⟨hwf, hnoref, hr, hμ⟩
  | cons t rest ih =>
    intro s hwf hnoref hr hμ hts
    have hstep := (advance_tick_spec s t k m r μ info hwf hnoref hr hmid hμ
      hnc hinfo).2 (hts t (List.mem_cons_self _ _))
    have hrun : runTicks s (t :: rest) = runTicks (updateRobotStates s t) rest :=
      rfl
    rw [hrun]
    exact ih (updateRobotStates s t)
      (updateRobotStates_preserves_wf s t hwf)
      (updateRobotStates_preserves_noref s t k m hnoref)
      hstep.1 hstep.2
      (fun t' ht' => hts t' (List.mem_cons_of_mem _ ht'))

/-- Claim C7: bounded overshoot.  For a robot bound to a non-cancelled mission
whose stage has a next stage and nominal duration `D = info.duration * 1000`
milliseconds, under advancement ticks every `T > 0` time units starting at
`stageStartTime` (tick `i` at `stageStartTime + (i+1)·T`), the mission leaves
the stage exactly at the first tick `j` with `j·T ≥ D`, so the observed time
spent in the stage is `j·T`, which lies in the interval `[D, D + T)`. -/
theorem C7_bounded_overshoot (s : ServerState) (T j : Nat) (k m : String)
    (r : Robot) (μ : Mission) (info : StageInfo) (nxt : Stage)
    (hwf : WFRobots s) (hnoref : NoRefExcept s k m)
    (hr : storeGet s.robots k = some r) (hmid : r.currentMissionId = some m)
    (hμ : storeGet s.missions m = some μ)
    (hnc : μ.currentStage ≠ Stage.cancelled)
    (hinfo : missionStages μ.currentStage = some info)
    (hnx : nextStage μ.currentStage = some nxt)
    (hT : 0 < T) (hj : 1 ≤ j)
    (hjhit : info.duration * 1000 ≤ j * T)
    (hjmin : (j - 1) * T < info.duration * 1000) :
    ∃ μ', storeGet (runTicks s ((List.range j).map
        (fun i => μ.stageStartTime + (i + 1) * T))).missions m = some μ' ∧
      μ'.currentStage = nxt ∧
      μ'.stageStartTime - μ.stageStartTime = j * T ∧
      info.duration * 1000 ≤ μ'.stageStartTime - μ.stageStartTime ∧
      μ'.stageStartTime - μ.stageStartTime < info.duration * 1000 + T := by
  obtain ⟨nextInfo, hni⟩ := missionStages_of_nextStage _ _ hnx
  have hj1 : j - 1 + 1 = j := by omega
  have hsucc : j * T = (j - 1) * T + T := by
    conv_lhs => rw [← hj1]
    rw [Nat.succ_mul]
  have hsched : (List.range j).map (fun i => μ.stageStartTime + (i + 1) * T) =
      ((List.range (j - 1)).map (fun i => μ.stageStartTime + (i + 1) * T)) ++
        [μ.stageStartTime + j * T] := by
    conv_lhs => rw [← hj1]
    rw [List.range_succ, List.map_append]
    simp only [List.map_cons, List.map_nil, hj1]
  have hpre := run_pre_deadline k m r μ info hmid hnc hinfo
    ((List.range (j - 1)).map (fun i => μ.stageStartTime + (i + 1) * T)) s
    hwf hnoref hr hμ ?pre
  case pre =>
    intro t' ht'
    obtain ⟨i, hi, rfl⟩ := List.mem_map.mp ht'
    rw [List.mem_range] at hi
    have h1 : (i + 1) * T ≤ (j - 1) * T := Nat.mul_le_mul_right T (by omega)
    have h2 : μ.stageStartTime + (i + 1) * T - μ.stageStartTime = (i + 1) * T :=
      Nat.add_sub_cancel_left _ _
    rw [h2]
    omega
  obtain ⟨hwf1, hnoref1, hr1, hμ1⟩ := hpre
  have hrun : runTicks s
      ((List.range j).map (fun i => μ.stageStartTime + (i + 1) * T)) =
      updateRobotStates
        (runTicks s ((List.range (j - 1)).map
          (fun i => μ.stageStartTime + (i + 1) * T)))
        (μ.stageStartTime + j * T) := by
    rw [hsched]
    unfold runTicks
    rw [List.foldl_append]
    rfl
  have hcancel : μ.stageStartTime + j * T - μ.stageStartTime = j * T :=
    Nat.add_sub_cancel_left _ _
  have hfinal := ((advance_tick_spec
      (runTicks s ((List.range (j - 1)).map
        (fun i => μ.stageStartTime + (i + 1) * T)))
      (μ.stageStartTime + j * T) k m r μ info hwf1 hnoref1 hr1 hmid hμ1 hnc
      hinfo).1 (by rw [hcancel]; exact hjhit)).1 nxt nextInfo hnx hni
  refine ⟨advancedMission μ nxt (μ.stageStartTime + j * T), ?_, rfl, ?_, ?_, ?_⟩
  · rw [hrun]
    exact hfinal.1
  · exact hcancel
  · show info.duration * 1000 ≤ μ.stageStartTime + j * T - μ.stageStartTime
    rw [hcancel]
    exact hjhit
  · show μ.stageStartTime + j * T - μ.stageStartTime < info.duration * 1000 + T
    rw [hcancel, hsucc]
    exact Nat.add_lt_add_right hjmin T

/-- Witness for C7 at `demoState`: the 150s `travel` stage under 10s ticks is
left exactly at the 15th tick, an observed duration of 150000ms, inside
`[150000, 160000)`. -/
theorem C7_bounded_overshoot_witness :
    ∃ μ', storeGet (runTicks demoState ((List.range 15).map
        (fun i => demoMission.stageStartTime + (i + 1) * 10000))).missions
        "m1" = some μ' ∧
      μ'.currentStage = Stage.delivery ∧
      μ'.stageStartTime - demoMission.stageStartTime = 15 * 10000 ∧
      (StageInfo.mk 150 RobotStatus.en_route).duration * 1000 ≤
        μ'.stageStartTime - demoMission.stageStartTime ∧
      μ'.stageStartTime - demoMission.stageStartTime <
        (StageInfo.mk 150 RobotStatus.en_route).duration * 1000 + 10000 :=
  C7_bounded_overshoot demoState 10000 15 "r1" "m1" demoRobot demoMission
    (StageInfo.mk 150 RobotStatus.en_route) Stage.delivery
    (by constructor <;> decide) (by unfold NoRefExcept; decide)
    (by decide) (by decide) (by decide) (by decide) (by decide) (by decide)
    (by decide) (by decide) (by decide) (by decide)
